import Mathlib

/-!
Verification model of `src/src/vw/Plate/Blob.h` (vw::platefile::Blob).

A blob is a single append-only file.  The file starts with a 24-byte
end-of-file marker region (three redundant 64-bit words holding the
committed end-of-file pointer); committed stanzas follow.  Each stanza is

  [uint16 descriptor length L] [L bytes stanza descriptor] [metadata] [payload]

where the descriptor records header_offset, header_size, data_offset and
data_size, all relative to the stanza's base offset.

The header file declares the operations; the inline bodies present in the
header (`size`, `begin`, `end`, the iterator's `equal` / `increment` /
`dereference` / `current_base_offset` / `current_data_size`) are embedded
directly from that code.  The out-of-line bodies (`write`, `read_header`,
`read_data`, `data_size`, `next_base_offset`, the marker routines and the
constructor) are not part of the given source tree, so they are modelled
from the specification and marked as such below.

Bytes are modelled as natural numbers; machine words are handled with
explicit `% 2 ^ 64` (resp. `% 2 ^ 16`) truncation in the codec.
-/

/-- Little-endian encoding of `n` into exactly `k` bytes (truncating at
`256 ^ k`, i.e. at `2 ^ 64` for `k = 8` and `2 ^ 16` for `k = 2`). -/
def natLE : Nat → Nat → List Nat
  | 0, _ => []
  | k + 1, n => n % 256 :: natLE k (n / 256)

/-- Little-endian value of a byte list. -/
def leVal : List Nat → Nat
  | [] => 0
  | b :: bs => b + 256 * leVal bs

/-- Reading `len` bytes of `file` starting at byte offset `off`. -/
def readBytes (file : List Nat) (off len : Nat) : List Nat :=
  (file.drop off).take len

/-- Overwriting the bytes of `file` at offset `off` with `bs` (extending the
file when the write runs past its current physical end), as a seek-and-write
on the underlying fstream does. -/
def overwriteAt (file : List Nat) (off : Nat) (bs : List Nat) : List Nat :=
  file.take off ++ bs ++ file.drop (off + bs.length)

/-- Stanza descriptor (the BlobRecord protobuffer): byte offsets of the
metadata record and the payload relative to the stanza's base offset,
with their lengths. -/
structure BlobRecord where
  header_offset : Nat
  header_size : Nat
  data_offset : Nat
  data_size : Nat
deriving DecidableEq, Repr

/-- Modelled from the spec: fixed-width serialization of the stanza
descriptor (the BlobRecord protobuffer is opaque in the given header; the
model serializes the four 64-bit fields little-endian, 32 bytes total). -/
def blobRecordBytes (r : BlobRecord) : List Nat :=
  natLE 8 r.header_offset ++ natLE 8 r.header_size ++
  natLE 8 r.data_offset ++ natLE 8 r.data_size

/-- Modelled from the spec: deserialization of a stanza descriptor; fails
on any byte string that is not exactly a 32-byte serialized descriptor. -/
def decodeBlobRecord (bs : List Nat) : Option BlobRecord :=
  if bs.length = 32 then
    some { header_offset := leVal (bs.take 8)
           header_size := leVal ((bs.drop 8).take 8)
           data_offset := leVal ((bs.drop 16).take 8)
           data_size := leVal ((bs.drop 24).take 8) }
  else none

/-- Descriptor built by `write` for metadata `header` and payload `data`:
the metadata record starts right after the 2-byte length prefix and the
32-byte serialized descriptor, the payload right after the metadata. -/
def mkBlobRecord (header data : List Nat) : BlobRecord :=
  { header_offset := 34
    header_size := header.length
    data_offset := 34 + header.length
    data_size := data.length }

/-- On-disk bytes of one stanza: 16-bit descriptor length, serialized
descriptor, metadata record, payload — in that exact order. -/
def stanzaBytes (header data : List Nat) : List Nat :=
  natLE 2 32 ++ blobRecordBytes (mkBlobRecord header data) ++ header ++ data

/-- Modelled from the spec: the end-of-file marker region — three redundant
64-bit words, each holding the committed end-of-file pointer. -/
def markerBytes (p : Nat) : List Nat :=
  natLE 8 p ++ natLE 8 p ++ natLE 8 p

/-- Error taxonomy of the blob store (spec §7). -/
inductive BlobErr where
  | IOFailure
  | CorruptStanza
  | CorruptMarker
  | OutOfRange
  | ReadOnlyViolation
deriving DecidableEq, Repr

/-- Modelled from the spec: decoding the marker region; any mismatch among
the redundant copies is `CorruptMarker`. -/
def read_end_of_file_ptr (file : List Nat) : Except BlobErr Nat :=
  let a := leVal (readBytes file 0 8)
  let b := leVal (readBytes file 8 8)
  let c := leVal (readBytes file 16 8)
  if a = b ∧ b = c then .ok a else .error .CorruptMarker

/-- The in-memory state of an open blob: the file's byte content, the cached
committed end-of-file pointer, the write counter and the open mode. -/
structure Blob where
  file : List Nat
  m_end_of_file_ptr : Nat
  m_write_count : Nat
  readonly : Bool
deriving DecidableEq, Repr

/-- Returns the size of the blob in bytes; only counts valid entries
(invalid data may exist beyond the end-of-file pointer).  Inline in the
header: `return m_end_of_file_ptr`. -/
def Blob.size (b : Blob) : Nat :=
  b.m_end_of_file_ptr

/-- Modelled from the spec: `read_blob_record` — read the 16-bit descriptor
length at `base`, then deserialize that many bytes; a zero declared length,
a length running past the physical file, or a deserialization failure is
`CorruptStanza`.  Returns the descriptor and its serialized length. -/
def Blob.read_blob_record (b : Blob) (base : Nat) : Except BlobErr (BlobRecord × Nat) :=
  let L := leVal (readBytes b.file base 2)
  if L = 0 then .error .CorruptStanza
  else if b.file.length < base + 2 + L then .error .CorruptStanza
  else
    match decodeBlobRecord (readBytes b.file (base + 2) L) with
    | some r => .ok (r, L)
    | none => .error .CorruptStanza

/-- Modelled from the spec: `read_header` — fails with `OutOfRange` unless
`base` is in the committed region (≥ marker-region end and < end-of-file
pointer); otherwise decodes the descriptor and returns exactly
`header_size` bytes at `base + header_offset`. -/
def Blob.read_header (b : Blob) (base : Nat) : Except BlobErr (List Nat) :=
  if base < 24 ∨ b.m_end_of_file_ptr ≤ base then .error .OutOfRange
  else
    match b.read_blob_record base with
    | .error e => .error e
    | .ok (r, _) => .ok (readBytes b.file (base + r.header_offset) r.header_size)

/-- Modelled from the spec: `read_data` — same range check and descriptor
lookup as `read_header`, then returns `data_size` bytes at
`base + data_offset` together with the `data_size` output parameter. -/
def Blob.read_data (b : Blob) (base : Nat) : Except BlobErr (List Nat × Nat) :=
  if base < 24 ∨ b.m_end_of_file_ptr ≤ base then .error .OutOfRange
  else
    match b.read_blob_record base with
    | .error e => .error e
    | .ok (r, _) => .ok (readBytes b.file (base + r.data_offset) r.data_size, r.data_size)

/-- Modelled from the spec: `data_size` — descriptor lookup only, no
payload read. -/
def Blob.data_size (b : Blob) (base : Nat) : Except BlobErr Nat :=
  match b.read_blob_record base with
  | .error e => .error e
  | .ok (r, _) => .ok r.data_size

/-- Modelled from the spec: `next_base_offset` — the current base offset
plus the total stanza length taken from the descriptor; a result past the
committed end-of-file pointer is `CorruptStanza`. -/
def Blob.next_base_offset (b : Blob) (base : Nat) : Except BlobErr Nat :=
  match b.read_blob_record base with
  | .error e => .error e
  | .ok (r, _) =>
    let nxt := base + r.data_offset + r.data_size
    if b.m_end_of_file_ptr < nxt then .error .CorruptStanza else .ok nxt

/-- Modelled from the spec: `write` — fails on a read-only blob; otherwise
appends the stanza for `(header, data)` at the committed end-of-file
pointer (overwriting any stranded bytes from an earlier failed write),
commits the advanced pointer to the marker region, increments the write
counter, and returns the stanza's base offset.  The C++ `data_size`
argument is the length of the `data` buffer, here `data.length`. -/
def Blob.write (b : Blob) (header data : List Nat) : Except BlobErr (Blob × Nat) :=
  if b.readonly then .error .ReadOnlyViolation
  else
    let base := b.m_end_of_file_ptr
    let stanza := stanzaBytes header data
    let file1 := overwriteAt b.file base stanza
    let newEof := base + stanza.length
    let file2 := overwriteAt file1 0 (markerBytes newEof)
    .ok ({ file := file2
           m_end_of_file_ptr := newEof
           m_write_count := b.m_write_count + 1
           readonly := b.readonly }, base)

/-- Modelled from the spec: opening an existing blob file — the marker is
read once and cached as the current end-of-file pointer. -/
def Blob.openFile (file : List Nat) (ro : Bool) : Except BlobErr Blob :=
  match read_end_of_file_ptr file with
  | .error e => .error e
  | .ok p => .ok { file := file, m_end_of_file_ptr := p, m_write_count := 0, readonly := ro }

/-- Modelled from the spec: a freshly created blob — the marker region
commits the pointer 24, so the first stanza begins right after it. -/
def Blob.init : Blob :=
  { file := markerBytes 24, m_end_of_file_ptr := 24, m_write_count := 0, readonly := false }

/-- An STL-style cursor over the stanzas of a blob: the blob and the
current base offset (`Blob::iterator` in the header). -/
structure Blob.iterator where
  m_blob : Blob
  m_current_base_offset : Nat
deriving DecidableEq, Repr

/-- Inline in the header: two cursors are equal when their current base
offsets are equal. -/
def Blob.iterator.equal (it other : Blob.iterator) : Bool :=
  it.m_current_base_offset == other.m_current_base_offset

/-- Inline in the header: `increment` replaces the current base offset by
`next_base_offset` of it (the C++ body throws on failure; the model returns
the error). -/
def Blob.iterator.increment (it : Blob.iterator) : Except BlobErr Blob.iterator :=
  match it.m_blob.next_base_offset it.m_current_base_offset with
  | .error e => .error e
  | .ok n => .ok ⟨it.m_blob, n⟩

/-- Inline in the header: dereferencing reads the metadata record at the
current base offset. -/
def Blob.iterator.dereference (it : Blob.iterator) : Except BlobErr (List Nat) :=
  it.m_blob.read_header it.m_current_base_offset

/-- Inline in the header: the current base offset. -/
def Blob.iterator.current_base_offset (it : Blob.iterator) : Nat :=
  it.m_current_base_offset

/-- Inline in the header: the payload size at the current base offset. -/
def Blob.iterator.current_data_size (it : Blob.iterator) : Except BlobErr Nat :=
  it.m_blob.data_size it.m_current_base_offset

/-- Inline in the header: `begin` — a cursor at `3 * sizeof(uint64)`, the
first byte after the end-of-file marker region. -/
def Blob.begin (b : Blob) : Blob.iterator :=
  ⟨b, 3 * 8⟩

/-- Inline in the header: `end` — a cursor at the end-of-file pointer
(`end` is a Lean keyword, hence the underscore). -/
def Blob.end_ (b : Blob) : Blob.iterator :=
  ⟨b, b.m_end_of_file_ptr⟩

/-- Running the scan loop an index-rebuild client performs: starting from a
cursor, repeatedly test equality against the `end` cursor and `increment`,
collecting the visited base offsets.  `fuel` bounds the number of steps so
the loop is total; exhausted fuel reports `IOFailure`. -/
def Blob.scanFrom (b : Blob) : Nat → Blob.iterator → Except BlobErr (List Nat)
  | 0, _ => .error .IOFailure
  | fuel + 1, it =>
    if it.equal b.end_ then .ok []
    else
      match it.increment with
      | .error e => .error e
      | .ok it2 =>
        match b.scanFrom fuel it2 with
        | .error e => .error e
        | .ok rest => .ok (it.current_base_offset :: rest)

/-- Bytes of one write-log entry `(metadata, payload)`. -/
def entryBytes (e : List Nat × List Nat) : List Nat :=
  stanzaBytes e.1 e.2

/-- Concatenated bytes of a write log. -/
def logBytes : List (List Nat × List Nat) → List Nat
  | [] => []
  | e :: l => entryBytes e ++ logBytes l

/-- Base offsets of consecutive stanzas laid out from `start`. -/
def offsetsFrom (start : Nat) : List (List Nat × List Nat) → List Nat
  | [] => []
  | e :: l => start :: offsetsFrom (start + (entryBytes e).length) l

/-- A machine-representable log entry: its stanza's sizing fields fit in
64 bits. -/
def goodEntry (e : List Nat × List Nat) : Prop :=
  34 + e.1.length + e.2.length < 2 ^ 64

/-- Well-formedness of an open writable blob: its file is the marker region
for the cached end-of-file pointer, followed by the stanzas of the write
log `log`, followed by arbitrary stranded bytes `rest` beyond the pointer;
the pointer is exactly 24 plus the committed bytes; every committed stanza
is machine-representable. -/
def Blob.WF (b : Blob) (log : List (List Nat × List Nat)) (rest : List Nat) : Prop :=
  b.file = markerBytes b.m_end_of_file_ptr ++ logBytes log ++ rest ∧
  b.m_end_of_file_ptr = 24 + (logBytes log).length ∧
  b.readonly = false ∧
  ∀ e ∈ log, goodEntry e

/-- Blobs built from a fresh file by a sequence of successful writes,
together with the arguments and returned base offset of every write. -/
inductive Built : Blob → List (List Nat × List Nat × Nat) → Prop where
  | nil : Built Blob.init []
  | step {b wlog M P b' o} : Built b wlog → 34 + M.length + P.length < 2 ^ 64 →
      b.write M P = .ok (b', o) → Built b' (wlog ++ [(M, P, o)])

/-- Forgetting the returned offsets of a full write log. -/
def wlogEntries (wlog : List (List Nat × List Nat × Nat)) : List (List Nat × List Nat) :=
  wlog.map fun t => (t.1, t.2.1)

/-- The offsets returned by the writes of a full write log. -/
def wlogOffsets (wlog : List (List Nat × List Nat × Nat)) : List Nat :=
  wlog.map fun t => t.2.2

/-- The blob produced by a write, for building concrete instances (falls
back to the fresh blob if the write failed). -/
def blobAfter (r : Except BlobErr (Blob × Nat)) : Blob :=
  match r with
  | .ok (b, _) => b
  | .error _ => Blob.init

/-- A concrete one-stanza blob: metadata `[7]`, payload `[9]`. -/
def demoBlob1 : Blob :=
  blobAfter (Blob.write Blob.init [7] [9])

/-- A concrete two-stanza blob: `demoBlob1` extended with metadata `[5, 6]`
and payload `[1, 2, 3]`. -/
def demoBlob2 : Blob :=
  blobAfter (demoBlob1.write [5, 6] [1, 2, 3])

/-- A concrete blob holding one stanza with a zero-length payload. -/
def demoBlob0 : Blob :=
  blobAfter (Blob.write Blob.init [7] [])

/-- The blob obtained by reopening the one-stanza demo blob after three
dangling bytes were appended past its committed marker. -/
def demoReopened : Blob :=
  match Blob.openFile (demoBlob1.file ++ [1, 2, 3]) false with
  | .ok b => b
  | .error _ => Blob.init

/-- The blob obtained by writing once more after the simulated crash. -/
def demoRewrite : Blob :=
  blobAfter (demoReopened.write [4] [8])

/-- The fixed-width encoder always produces exactly `k` bytes. -/
theorem natLE_length (k n : Nat) : (natLE k n).length = k := by
  induction k generalizing n with
  | zero => simp [natLE]
  | succ k ih => simp [natLE, ih]

/-- Decoding the fixed-width encoding recovers the value modulo `256 ^ k`. -/
theorem leVal_natLE (k n : Nat) : leVal (natLE k n) = n % 256 ^ k := by
  induction k generalizing n with
  | zero => simp [natLE, leVal, Nat.mod_one]
  | succ k ih =>
    simp only [natLE, leVal, ih, pow_succ]
    rw [mul_comm (256 ^ k) 256, Nat.mod_mul]

/-- Decoding the fixed-width encoding of a value that fits recovers it. -/
theorem leVal_natLE_of_lt {k n : Nat} (h : n < 256 ^ k) : leVal (natLE k n) = n := by
  rw [leVal_natLE, Nat.mod_eq_of_lt h]

/-- A serialized stanza descriptor is 32 bytes. -/
theorem blobRecordBytes_length (r : BlobRecord) : (blobRecordBytes r).length = 32 := by
  simp [blobRecordBytes, natLE_length]

/-- Total length of a stanza: 2-byte prefix, 32-byte descriptor, metadata,
payload. -/
theorem stanzaBytes_length (header data : List Nat) :
    (stanzaBytes header data).length = 34 + header.length + data.length := by
  simp [stanzaBytes, blobRecordBytes_length, natLE_length]
  omega

/-- The marker region is 24 bytes. -/
theorem markerBytes_length (p : Nat) : (markerBytes p).length = 24 := by
  simp [markerBytes, natLE_length]

/-- Reading at an offset past a known prefix reads from the remainder. -/
theorem readBytes_shift (front xs : List Nat) (k len : Nat) :
    readBytes (front ++ xs) (front.length + k) len = readBytes xs k len := by
  unfold readBytes
  rw [← List.drop_drop, List.drop_left]

/-- Reading at the exact end of a known prefix reads from the remainder. -/
theorem readBytes_shift0 (front xs : List Nat) (len : Nat) :
    readBytes (front ++ xs) front.length len = readBytes xs 0 len := by
  have h := readBytes_shift front xs 0 len
  simpa using h

/-- Reading exactly a leading block returns it. -/
theorem readBytes_first (xs suf : List Nat) :
    readBytes (xs ++ suf) 0 xs.length = xs := by
  unfold readBytes
  simp [List.take_left]

/-- Taking 8 bytes off a file starting with one encoded 64-bit word
returns that word's bytes. -/
theorem take8_natLE (n : Nat) (t : List Nat) : (natLE 8 n ++ t).take 8 = natLE 8 n :=
  List.take_left' (natLE_length 8 n)

/-- Dropping 8 bytes off a file starting with one encoded 64-bit word
skips exactly that word. -/
theorem drop8_natLE (n : Nat) (t : List Nat) : (natLE 8 n ++ t).drop 8 = t :=
  List.drop_left' (natLE_length 8 n)

/-- Deserializing a serialized descriptor whose fields fit in 64 bits
recovers the descriptor. -/
theorem decodeBlobRecord_blobRecordBytes {r : BlobRecord}
    (h1 : r.header_offset < 2 ^ 64) (h2 : r.header_size < 2 ^ 64)
    (h3 : r.data_offset < 2 ^ 64) (h4 : r.data_size < 2 ^ 64) :
    decodeBlobRecord (blobRecordBytes r) = some r := by
  have e : (256 : Nat) ^ 8 = 2 ^ 64 := by norm_num
  obtain ⟨a, b, c, d⟩ := r
  simp only at h1 h2 h3 h4
  unfold decodeBlobRecord blobRecordBytes
  rw [if_pos (by simp [natLE_length])]
  simp only [List.append_assoc]
  have h8 : (natLE 8 a ++ (natLE 8 b ++ (natLE 8 c ++ natLE 8 d))).drop 8 =
      natLE 8 b ++ (natLE 8 c ++ natLE 8 d) := drop8_natLE _ _
  have h16 : (natLE 8 a ++ (natLE 8 b ++ (natLE 8 c ++ natLE 8 d))).drop 16 =
      natLE 8 c ++ natLE 8 d := by
    rw [(by norm_num : (16 : Nat) = 8 + 8), ← List.drop_drop, h8, drop8_natLE]
  have h24 : (natLE 8 a ++ (natLE 8 b ++ (natLE 8 c ++ natLE 8 d))).drop 24 = natLE 8 d := by
    rw [(by norm_num : (24 : Nat) = 16 + 8), ← List.drop_drop, h16, drop8_natLE]
  rw [h8, h16, h24, take8_natLE, take8_natLE, take8_natLE,
      List.take_of_length_le (by rw [natLE_length]),
      leVal_natLE_of_lt (by rw [e]; exact h1), leVal_natLE_of_lt (by rw [e]; exact h2),
      leVal_natLE_of_lt (by rw [e]; exact h3), leVal_natLE_of_lt (by rw [e]; exact h4)]

/-- Log bytes distribute over log concatenation. -/
theorem logBytes_append (l1 l2 : List (List Nat × List Nat)) :
    logBytes (l1 ++ l2) = logBytes l1 ++ logBytes l2 := by
  induction l1 with
  | nil => simp [logBytes]
  | cons e l ih => simp [logBytes, ih]

/-- Stanza base offsets distribute over log concatenation. -/
theorem offsetsFrom_append (s : Nat) (l1 l2 : List (List Nat × List Nat)) :
    offsetsFrom s (l1 ++ l2) = offsetsFrom s l1 ++ offsetsFrom (s + (logBytes l1).length) l2 := by
  induction l1 generalizing s with
  | nil => simp [offsetsFrom, logBytes]
  | cons e l ih => simp [offsetsFrom, logBytes, ih, Nat.add_assoc]

/-- There is one base offset per log entry. -/
theorem offsetsFrom_length (s : Nat) (l : List (List Nat × List Nat)) :
    (offsetsFrom s l).length = l.length := by
  induction l generalizing s with
  | nil => simp [offsetsFrom]
  | cons e l ih => simp [offsetsFrom, ih]

/-- Every base offset of a log laid out from `s` lies below `s` plus the
total committed length. -/
theorem offsetsFrom_mem_lt {s x : Nat} {l : List (List Nat × List Nat)}
    (h : x ∈ offsetsFrom s l) : x < s + (logBytes l).length := by
  induction l generalizing s with
  | nil => simp [offsetsFrom] at h
  | cons e l ih =>
    simp only [offsetsFrom, List.mem_cons] at h
    rcases h with rfl | h
    · have : (entryBytes e).length = 34 + e.1.length + e.2.length := stanzaBytes_length e.1 e.2
      simp [logBytes]
      omega
    · have := ih h
      simp [logBytes]
      omega

/-- Reading a block that sits at a known position in the file returns it. -/
theorem readBytes_block (front xs suf : List Nat) :
    readBytes (front ++ (xs ++ suf)) front.length xs.length = xs := by
  rw [readBytes_shift0, readBytes_first]

/-- Decoding the descriptor at the base offset of a stanza laid out in the
file returns the descriptor `write` built for it. -/
theorem read_blob_record_at {b : Blob} {front tail M P : List Nat}
    (hfile : b.file = front ++ (stanzaBytes M P ++ tail))
    (hgood : 34 + M.length + P.length < 2 ^ 64) :
    b.read_blob_record front.length = .ok (mkBlobRecord M P, 32) := by
  have hX : b.file =
      front ++ (natLE 2 32 ++ (blobRecordBytes (mkBlobRecord M P) ++ (M ++ (P ++ tail)))) := by
    rw [hfile]; simp [stanzaBytes, List.append_assoc]
  have hL : readBytes b.file front.length 2 = natLE 2 32 := by
    rw [hX, readBytes_shift0]
    unfold readBytes
    rw [List.drop_zero, List.take_left' (by simp [natLE_length])]
  have hrec : readBytes b.file (front.length + 2) 32 = blobRecordBytes (mkBlobRecord M P) := by
    rw [hX, readBytes_shift]
    unfold readBytes
    rw [List.drop_left' (by simp [natLE_length]), List.take_left' (blobRecordBytes_length _)]
  have hlen : ¬ (b.file.length < front.length + 2 + 32) := by
    rw [hfile]
    simp only [List.length_append, stanzaBytes_length]
    omega
  have hLv : leVal (natLE 2 32) = 32 := rfl
  simp only [Blob.read_blob_record, hL, hLv]
  rw [if_neg (by norm_num), if_neg hlen, hrec,
      @decodeBlobRecord_blobRecordBytes (mkBlobRecord M P)
        (by simp [mkBlobRecord]) (by simp [mkBlobRecord]; omega)
        (by simp [mkBlobRecord]; omega) (by simp [mkBlobRecord]; omega)]

/-- Reading the metadata record of a committed stanza returns exactly the
metadata that was written. -/
theorem read_header_at {b : Blob} {front tail M P : List Nat}
    (hfile : b.file = front ++ (stanzaBytes M P ++ tail))
    (hgood : 34 + M.length + P.length < 2 ^ 64)
    (hlo : 24 ≤ front.length)
    (hhi : front.length + (34 + M.length + P.length) ≤ b.m_end_of_file_ptr) :
    b.read_header front.length = .ok M := by
  have hrb := read_blob_record_at hfile hgood
  simp only [Blob.read_header]
  rw [if_neg (by omega), hrb]
  simp only [mkBlobRecord]
  have hf2 : b.file =
      (front ++ (natLE 2 32 ++ blobRecordBytes (mkBlobRecord M P))) ++ (M ++ (P ++ tail)) := by
    rw [hfile]; simp [stanzaBytes, List.append_assoc]
  have hl2 : front.length + 34 =
      (front ++ (natLE 2 32 ++ blobRecordBytes (mkBlobRecord M P))).length := by
    simp [natLE_length, blobRecordBytes_length]
  rw [hf2, hl2, show M.length = M.length from rfl, readBytes_block]

/-- Reading the payload of a committed stanza returns exactly the payload
that was written, with its size as the out-parameter. -/
theorem read_data_at {b : Blob} {front tail M P : List Nat}
    (hfile : b.file = front ++ (stanzaBytes M P ++ tail))
    (hgood : 34 + M.length + P.length < 2 ^ 64)
    (hlo : 24 ≤ front.length)
    (hhi : front.length + (34 + M.length + P.length) ≤ b.m_end_of_file_ptr) :
    b.read_data front.length = .ok (P, P.length) := by
  have hrb := read_blob_record_at hfile hgood
  simp only [Blob.read_data]
  rw [if_neg (by omega), hrb]
  simp only [mkBlobRecord]
  have hf3 : b.file =
      (front ++ (natLE 2 32 ++ (blobRecordBytes (mkBlobRecord M P) ++ M))) ++ (P ++ tail) := by
    rw [hfile]; simp [stanzaBytes, List.append_assoc]
  have hl3 : front.length + (34 + M.length) =
      (front ++ (natLE 2 32 ++ (blobRecordBytes (mkBlobRecord M P) ++ M))).length := by
    simp [natLE_length, blobRecordBytes_length]
    omega
  rw [hf3, hl3, readBytes_block]

/-- The payload size of a committed stanza, from the descriptor alone. -/
theorem data_size_at {b : Blob} {front tail M P : List Nat}
    (hfile : b.file = front ++ (stanzaBytes M P ++ tail))
    (hgood : 34 + M.length + P.length < 2 ^ 64) :
    b.data_size front.length = .ok P.length := by
  have hrb := read_blob_record_at hfile hgood
  simp only [Blob.data_size]
  rw [hrb]
  simp [mkBlobRecord]

/-- Advancing from the base offset of a committed stanza that ends at or
before the end-of-file pointer lands right after the stanza. -/
theorem next_base_offset_at {b : Blob} {front tail M P : List Nat}
    (hfile : b.file = front ++ (stanzaBytes M P ++ tail))
    (hgood : 34 + M.length + P.length < 2 ^ 64)
    (hhi : front.length + (34 + M.length + P.length) ≤ b.m_end_of_file_ptr) :
    b.next_base_offset front.length = .ok (front.length + (34 + M.length + P.length)) := by
  have hrb := read_blob_record_at hfile hgood
  simp only [Blob.next_base_offset]
  rw [hrb]
  simp only [mkBlobRecord]
  rw [if_neg (by omega)]
  congr 1
  omega

/-- Splitting a well-formed blob's file at one committed log entry. -/
theorem WF_split {b : Blob} {log : List (List Nat × List Nat)} {rest : List Nat}
    {pre suf : List (List Nat × List Nat)} {M P : List Nat}
    (hWF : b.WF log rest) (hs : log = pre ++ (M, P) :: suf) :
    b.file = (markerBytes b.m_end_of_file_ptr ++ logBytes pre) ++
      (stanzaBytes M P ++ (logBytes suf ++ rest)) ∧
    (markerBytes b.m_end_of_file_ptr ++ logBytes pre).length = 24 + (logBytes pre).length ∧
    24 + (logBytes pre).length + (34 + M.length + P.length) + (logBytes suf).length =
      b.m_end_of_file_ptr ∧
    34 + M.length + P.length < 2 ^ 64 := by
  obtain ⟨hfile, heof, hro, hg⟩ := hWF
  rw [hs] at hfile heof hg
  refine ⟨?_, ?_, ?_, ?_⟩
  · rw [hfile]
    simp [logBytes_append, logBytes, entryBytes, List.append_assoc]
  · simp [markerBytes_length]
  · rw [heof]
    simp only [logBytes_append, logBytes, entryBytes, List.length_append, stanzaBytes_length]
    omega
  · exact hg (M, P) (by simp)

/-- Reading the metadata of the committed stanza at a log position. -/
theorem read_header_committed {b : Blob} {log rest pre suf} {M P : List Nat}
    (hWF : b.WF log rest) (hs : log = pre ++ (M, P) :: suf) :
    b.read_header (24 + (logBytes pre).length) = .ok M := by
  obtain ⟨h1, h2, h3, h4⟩ := WF_split hWF hs
  have h := read_header_at h1 h4 (by rw [h2]; omega) (by rw [h2]; omega)
  rwa [h2] at h

/-- Reading the payload of the committed stanza at a log position. -/
theorem read_data_committed {b : Blob} {log rest pre suf} {M P : List Nat}
    (hWF : b.WF log rest) (hs : log = pre ++ (M, P) :: suf) :
    b.read_data (24 + (logBytes pre).length) = .ok (P, P.length) := by
  obtain ⟨h1, h2, h3, h4⟩ := WF_split hWF hs
  have h := read_data_at h1 h4 (by rw [h2]; omega) (by rw [h2]; omega)
  rwa [h2] at h

/-- The descriptor-only payload size of the committed stanza at a log
position. -/
theorem data_size_committed {b : Blob} {log rest pre suf} {M P : List Nat}
    (hWF : b.WF log rest) (hs : log = pre ++ (M, P) :: suf) :
    b.data_size (24 + (logBytes pre).length) = .ok P.length := by
  obtain ⟨h1, h2, h3, h4⟩ := WF_split hWF hs
  have h := data_size_at h1 h4
  rwa [h2] at h

/-- Advancing from the committed stanza at a log position lands exactly one
stanza further. -/
theorem next_base_offset_committed {b : Blob} {log rest pre suf} {M P : List Nat}
    (hWF : b.WF log rest) (hs : log = pre ++ (M, P) :: suf) :
    b.next_base_offset (24 + (logBytes pre).length) =
      .ok (24 + (logBytes pre).length + (34 + M.length + P.length)) := by
  obtain ⟨h1, h2, h3, h4⟩ := WF_split hWF hs
  have h := next_base_offset_at h1 h4 (by rw [h2]; omega)
  rwa [h2] at h

/-- A write on a writable blob always succeeds and returns the committed
end-of-file pointer as the base offset. -/
theorem write_succeeds {b : Blob} (M P : List Nat) (hro : b.readonly = false) :
    ∃ b', b.write M P = .ok (b', b.m_end_of_file_ptr) := by
  simp only [Blob.write, hro, Bool.false_eq_true, if_false]
  exact ⟨_, rfl⟩

/-- A successful write on a well-formed blob returns the old end-of-file
pointer, advances the pointer by the stanza length, increments the write
counter, and leaves a well-formed blob whose log has the new entry
appended (consuming stranded bytes that the stanza overwrote). -/
theorem write_WF {b : Blob} {log rest} {M P : List Nat} {b' : Blob} {o : Nat}
    (hWF : b.WF log rest) (hgood : 34 + M.length + P.length < 2 ^ 64)
    (hw : b.write M P = .ok (b', o)) :
    o = b.m_end_of_file_ptr ∧
    b'.m_end_of_file_ptr = b.m_end_of_file_ptr + (34 + M.length + P.length) ∧
    b'.m_write_count = b.m_write_count + 1 ∧
    b'.WF (log ++ [(M, P)]) (rest.drop (34 + M.length + P.length)) := by
  obtain ⟨hfile, heof, hro, hg⟩ := hWF
  simp only [Blob.write, hro, Bool.false_eq_true, if_false, Except.ok.injEq, Prod.mk.injEq] at hw
  obtain ⟨hb', ho⟩ := hw
  have hslen : (stanzaBytes M P).length = 34 + M.length + P.length := stanzaBytes_length M P
  have hsplitf : b.file = (markerBytes b.m_end_of_file_ptr ++ logBytes log) ++ rest := by
    rw [hfile, List.append_assoc]
  have hflen : (markerBytes b.m_end_of_file_ptr ++ logBytes log).length =
      b.m_end_of_file_ptr := by
    simp [markerBytes_length, heof]
  have htake : b.file.take b.m_end_of_file_ptr =
      markerBytes b.m_end_of_file_ptr ++ logBytes log := by
    rw [hsplitf]
    exact List.take_left' hflen
  have hdrop : b.file.drop (b.m_end_of_file_ptr + (stanzaBytes M P).length) =
      rest.drop (34 + M.length + P.length) := by
    rw [hsplitf, ← List.drop_drop, List.drop_left' hflen, hslen]
  have hfile1 : overwriteAt b.file b.m_end_of_file_ptr (stanzaBytes M P) =
      (markerBytes b.m_end_of_file_ptr ++ logBytes log) ++
        (stanzaBytes M P ++ rest.drop (34 + M.length + P.length)) := by
    unfold overwriteAt
    rw [htake, hdrop, List.append_assoc]
  have hdrop24 : ((markerBytes b.m_end_of_file_ptr ++ logBytes log) ++
      (stanzaBytes M P ++ rest.drop (34 + M.length + P.length))).drop 24 =
      logBytes log ++ (stanzaBytes M P ++ rest.drop (34 + M.length + P.length)) := by
    rw [List.append_assoc]
    exact List.drop_left' (markerBytes_length _)
  have hfile2 : b'.file =
      markerBytes (b.m_end_of_file_ptr + (34 + M.length + P.length)) ++
        logBytes (log ++ [(M, P)]) ++ rest.drop (34 + M.length + P.length) := by
    rw [← hb']
    show overwriteAt (overwriteAt b.file b.m_end_of_file_ptr (stanzaBytes M P)) 0
        (markerBytes (b.m_end_of_file_ptr + (stanzaBytes M P).length)) = _
    rw [hfile1, hslen]
    unfold overwriteAt
    simp only [List.take_zero, List.nil_append, Nat.zero_add, markerBytes_length, hdrop24]
    simp [logBytes_append, logBytes, entryBytes, List.append_assoc]
  have heof' : b'.m_end_of_file_ptr = b.m_end_of_file_ptr + (34 + M.length + P.length) := by
    rw [← hb']
    simp [hslen]
  refine ⟨ho.symm, heof', ?_, ?_, ?_, ?_, ?_⟩
  · rw [← hb']
  · rw [heof']
    exact hfile2
  · rw [heof', heof]
    simp only [logBytes_append, logBytes, entryBytes, List.length_append, stanzaBytes_length,
      List.length_nil]
    omega
  · rw [← hb']
  · intro e he
    rcases List.mem_append.mp he with h | h
    · exact hg e h
    · simp only [List.mem_singleton] at h
      subst h
      exact hgood

/-- The fresh blob is well-formed with an empty log. -/
theorem WF_init : Blob.init.WF [] [] := by
  refine ⟨?_, ?_, rfl, ?_⟩ <;> simp [Blob.init, logBytes]

/-- One unfolding step of the scan loop with remaining fuel. -/
theorem scanFrom_succ (b : Blob) (n : Nat) (it : Blob.iterator) :
    b.scanFrom (n + 1) it =
      if it.equal b.end_ then .ok []
      else
        match it.increment with
        | .error e => .error e
        | .ok it2 =>
          match b.scanFrom n it2 with
          | .error e => .error e
          | .ok rest => .ok (it.current_base_offset :: rest) :=
  rfl

/-- The scan loop started at the base offset of any log suffix visits
exactly the base offsets of that suffix and then stops at the `end`
cursor, given fuel one larger than the number of remaining stanzas. -/
theorem scanFrom_WF {b : Blob} {log : List (List Nat × List Nat)} {rest : List Nat}
    (hWF : b.WF log rest) :
    ∀ suf pre : List (List Nat × List Nat), log = pre ++ suf →
      b.scanFrom (suf.length + 1) ⟨b, 24 + (logBytes pre).length⟩ =
        .ok (offsetsFrom (24 + (logBytes pre).length) suf) := by
  intro suf
  induction suf with
  | nil =>
    intro pre hs
    have heq : 24 + (logBytes pre).length = b.m_end_of_file_ptr := by
      rw [hWF.2.1, hs, List.append_nil]
    have hbeq : Blob.iterator.equal ⟨b, 24 + (logBytes pre).length⟩ b.end_ = true := by
      simp [Blob.iterator.equal, Blob.end_, heq]
    rw [scanFrom_succ, hbeq]
    simp [offsetsFrom]
  | cons e suf ih =>
    intro pre hs
    obtain ⟨M, P⟩ := e
    have hnext := next_base_offset_committed hWF hs
    have hlt : 24 + (logBytes pre).length < b.m_end_of_file_ptr := by
      obtain ⟨_, _, h3, _⟩ := WF_split hWF hs
      omega
    have hne : Blob.iterator.equal ⟨b, 24 + (logBytes pre).length⟩ b.end_ = false := by
      simp [Blob.iterator.equal, Blob.end_]
      omega
    have hinc : Blob.iterator.increment ⟨b, 24 + (logBytes pre).length⟩ =
        .ok ⟨b, 24 + (logBytes pre).length + (34 + M.length + P.length)⟩ := by
      simp [Blob.iterator.increment, hnext]
    have hpre' : 24 + (logBytes (pre ++ [(M, P)])).length =
        24 + (logBytes pre).length + (34 + M.length + P.length) := by
      simp only [logBytes_append, logBytes, entryBytes, List.length_append, stanzaBytes_length,
        List.length_nil]
      omega
    have hrec := ih (pre ++ [(M, P)]) (by rw [hs, List.append_assoc]; rfl)
    rw [hpre'] at hrec
    rw [List.length_cons, scanFrom_succ, hne]
    simp only [Bool.false_eq_true, if_false, hinc, hrec, offsetsFrom,
      Blob.iterator.current_base_offset, entryBytes, stanzaBytes_length]

/-- Every blob built by successful writes is well-formed, its committed log
is exactly the written entries, and the offsets the writes returned are
exactly the laid-out stanza base offsets. -/
theorem Built_WF {b : Blob} {wlog : List (List Nat × List Nat × Nat)} (h : Built b wlog) :
    b.WF (wlogEntries wlog) [] ∧ wlogOffsets wlog = offsetsFrom 24 (wlogEntries wlog) := by
  induction h with
  | nil =>
    constructor
    · refine ⟨?_, ?_, rfl, ?_⟩ <;> simp [Blob.init, logBytes, wlogEntries]
    · simp [wlogOffsets, wlogEntries, offsetsFrom]
  | @step b0 wlog0 M P b' o hB hgood hw ih =>
    obtain ⟨hWF, hoff⟩ := ih
    obtain ⟨ho, heof', hwc, hWF'⟩ := write_WF hWF hgood hw
    have hent : wlogEntries (wlog0 ++ [(M, P, o)]) = wlogEntries wlog0 ++ [(M, P)] := by
      simp [wlogEntries]
    constructor
    · rw [hent]
      simpa using hWF'
    · have hoffs : wlogOffsets (wlog0 ++ [(M, P, o)]) = wlogOffsets wlog0 ++ [o] := by
        simp [wlogOffsets]
      rw [hoffs, hent, offsetsFrom_append, hoff, ho, hWF.2.1]
      simp [offsetsFrom]

/-- At any split of a full write log, the offset the write returned is the
laid-out base offset of the corresponding stanza. -/
theorem Built_offset_of_split {b : Blob} {wlog : List (List Nat × List Nat × Nat)}
    (h : Built b wlog) {pre suf : List (List Nat × List Nat × Nat)}
    {t : List Nat × List Nat × Nat} (hs : wlog = pre ++ t :: suf) :
    t.2.2 = 24 + (logBytes (wlogEntries pre)).length := by
  obtain ⟨hWF, hoff⟩ := Built_WF h
  rw [hs] at hoff
  have h1 : wlogOffsets (pre ++ t :: suf) = wlogOffsets pre ++ (t.2.2 :: wlogOffsets suf) := by
    simp [wlogOffsets]
  have h2 : wlogEntries (pre ++ t :: suf) =
      wlogEntries pre ++ ((t.1, t.2.1) :: wlogEntries suf) := by
    simp [wlogEntries]
  rw [h1, h2, offsetsFrom_append] at hoff
  have hlen : (wlogOffsets pre).length = (offsetsFrom 24 (wlogEntries pre)).length := by
    simp [wlogOffsets, offsetsFrom_length, wlogEntries]
  obtain ⟨_, h4⟩ := List.append_inj hoff hlen
  simp only [offsetsFrom, List.cons.injEq] at h4
  exact h4.1

/-- Opening a file that starts with a committed marker region caches the
committed pointer, whatever bytes follow. -/
theorem openFile_marker {p : Nat} (tail : List Nat) (hp : p < 2 ^ 64) (ro : Bool) :
    Blob.openFile (markerBytes p ++ tail) ro =
      .ok { file := markerBytes p ++ tail, m_end_of_file_ptr := p,
            m_write_count := 0, readonly := ro } := by
  have e : (256 : Nat) ^ 8 = 2 ^ 64 := by norm_num
  have hX : markerBytes p ++ tail = natLE 8 p ++ (natLE 8 p ++ (natLE 8 p ++ tail)) := by
    simp [markerBytes, List.append_assoc]
  have h0 : readBytes (markerBytes p ++ tail) 0 8 = natLE 8 p := by
    rw [hX]
    unfold readBytes
    rw [List.drop_zero, take8_natLE]
  have h8 : readBytes (markerBytes p ++ tail) 8 8 = natLE 8 p := by
    rw [hX]
    unfold readBytes
    rw [drop8_natLE, take8_natLE]
  have h16 : readBytes (markerBytes p ++ tail) 16 8 = natLE 8 p := by
    rw [hX]
    unfold readBytes
    rw [(by norm_num : (16 : Nat) = 8 + 8), ← List.drop_drop, drop8_natLE, drop8_natLE,
      take8_natLE]
  have hval : leVal (natLE 8 p) = p := leVal_natLE_of_lt (by rw [e]; exact hp)
  simp [Blob.openFile, read_end_of_file_ptr, h0, h8, h16, hval]

/-- The first demo write evaluates as expected. -/
theorem demoWrite1_eq : Blob.write Blob.init [7] [9] = .ok (demoBlob1, 24) :=
  rfl

/-- The second demo write evaluates as expected. -/
theorem demoWrite2_eq : demoBlob1.write [5, 6] [1, 2, 3] = .ok (demoBlob2, 60) :=
  rfl

/-- The one-stanza demo blob is well-formed. -/
theorem WF_demoBlob1 : demoBlob1.WF [([7], [9])] [] := by
  have h := (write_WF WF_init (by norm_num) demoWrite1_eq).2.2.2
  simpa using h

/-- The two-stanza demo blob is well-formed. -/
theorem WF_demoBlob2 : demoBlob2.WF [([7], [9]), ([5, 6], [1, 2, 3])] [] := by
  have h := (write_WF WF_demoBlob1 (by norm_num) demoWrite2_eq).2.2.2
  simpa using h

/-- The two-stanza demo blob is built by two writes. -/
theorem Built_demoBlob2 : Built demoBlob2 [([7], [9], 24), ([5, 6], [1, 2, 3], 60)] := by
  have h1 := Built.step Built.nil (by norm_num) demoWrite1_eq
  have h2 := Built.step h1 (by norm_num) demoWrite2_eq
  simpa using h2

/-- Inverting a successful write without any well-formedness assumption:
the returned offset is the old pointer and the pointer advances by the
stanza length. -/
theorem write_inv {b b' : Blob} {M P : List Nat} {o : Nat}
    (hw : b.write M P = .ok (b', o)) :
    o = b.m_end_of_file_ptr ∧
    b'.m_end_of_file_ptr = b.m_end_of_file_ptr + (34 + M.length + P.length) := by
  cases hb : b.readonly with
  | true => simp [Blob.write, hb] at hw
  | false =>
    simp only [Blob.write, hb, Bool.false_eq_true, if_false, Except.ok.injEq,
      Prod.mk.injEq] at hw
    obtain ⟨hb', ho⟩ := hw
    refine ⟨ho.symm, ?_⟩
    rw [← hb']
    simp [stanzaBytes_length]

/-- Claim C1: for every metadata byte sequence M and every payload P
(including a zero-length payload with a non-empty M), a successful
`write M P` (whose `data_size` argument is the payload length) on a
well-formed blob returns a base offset `o` such that `read_header o`
returns exactly M, `read_data o` returns exactly P with data size `|P|`,
and `data_size o` equals `|P|`. -/
theorem C1_round_trip {b : Blob} {log : List (List Nat × List Nat)} {rest M P : List Nat}
    {b' : Blob} {o : Nat}
    (hWF : b.WF log rest) (hgood : 34 + M.length + P.length < 2 ^ 64)
    (hw : b.write M P = .ok (b', o)) :
    b'.read_header o = .ok M ∧ b'.read_data o = .ok (P, P.length) ∧
    b'.data_size o = .ok P.length := by
  obtain ⟨ho, heof', hwc, hWF'⟩ := write_WF hWF hgood hw
  have hsplit : log ++ [(M, P)] = log ++ (M, P) :: [] := rfl
  have hbase : 24 + (logBytes log).length = o := by rw [ho, hWF.2.1]
  refine ⟨?_, ?_, ?_⟩
  · have h := read_header_committed hWF' hsplit
    rwa [hbase] at h
  · have h := read_data_committed hWF' hsplit
    rwa [hbase] at h
  · have h := data_size_committed hWF' hsplit
    rwa [hbase] at h

/-- Witness for C1 at the boundary input: non-empty metadata `[7]` with a
zero-length payload round-trips and reports data size 0. -/
theorem C1_round_trip_witness :
    demoBlob0.read_header 24 = .ok [7] ∧ demoBlob0.read_data 24 = .ok ([], 0) ∧
    demoBlob0.data_size 24 = .ok 0 :=
  C1_round_trip WF_init (by norm_num)
    (show Blob.write Blob.init [7] [] = .ok (demoBlob0, 24) from rfl)

/-- Claim C4: for consecutive successful writes on one blob, the second
returned base offset is strictly greater than the first, and `size()`
after the first write equals the offset the second write returns. -/
theorem C4_monotonic_offsets {b b1 b2 : Blob} {M P N Q : List Nat} {o1 o2 : Nat}
    (h1 : b.write M P = .ok (b1, o1)) (h2 : b1.write N Q = .ok (b2, o2)) :
    o1 < o2 ∧ b1.size = o2 := by
  obtain ⟨ho1, heof1⟩ := write_inv h1
  obtain ⟨ho2, _⟩ := write_inv h2
  constructor
  · omega
  · rw [Blob.size, ho2]

/-- Witness for C4 on the demo blob's two writes. -/
theorem C4_monotonic_offsets_witness : (24 : Nat) < 60 ∧ demoBlob1.size = 60 :=
  C4_monotonic_offsets demoWrite1_eq demoWrite2_eq

/-- Claim C5: once a stanza is committed at a base offset, a subsequent
write changes neither `read_header` nor `read_data` there — both return
the originally written metadata and payload before and after the later
write. -/
theorem C5_append_only_immutability {b : Blob} {log : List (List Nat × List Nat)}
    {rest : List Nat} {pre suf : List (List Nat × List Nat)}
    {M P N Q : List Nat} {b' : Blob} {o' : Nat}
    (hWF : b.WF log rest) (hs : log = pre ++ (M, P) :: suf)
    (hgood' : 34 + N.length + Q.length < 2 ^ 64)
    (hw : b.write N Q = .ok (b', o')) :
    b.read_header (24 + (logBytes pre).length) = .ok M ∧
    b'.read_header (24 + (logBytes pre).length) = .ok M ∧
    b.read_data (24 + (logBytes pre).length) = .ok (P, P.length) ∧
    b'.read_data (24 + (logBytes pre).length) = .ok (P, P.length) := by
  obtain ⟨_, _, _, hWF'⟩ := write_WF hWF hgood' hw
  have hs' : log ++ [(N, Q)] = pre ++ (M, P) :: (suf ++ [(N, Q)]) := by
    rw [hs]
    simp
  exact ⟨read_header_committed hWF hs, read_header_committed hWF' hs',
    read_data_committed hWF hs, read_data_committed hWF' hs'⟩

/-- Witness for C5: the first demo stanza reads identically before and
after the second write. -/
theorem C5_append_only_immutability_witness :
    demoBlob1.read_header 24 = .ok [7] ∧ demoBlob2.read_header 24 = .ok [7] ∧
    demoBlob1.read_data 24 = .ok ([9], 1) ∧ demoBlob2.read_data 24 = .ok ([9], 1) := by
  have h := @C5_append_only_immutability demoBlob1 [([7], [9])] [] [] [] [7] [9] [5, 6]
    [1, 2, 3] demoBlob2 60 WF_demoBlob1 rfl (by norm_num) demoWrite2_eq
  simpa using h

/-- Claim C8: two cursors compare equal exactly when their current base
offsets are equal, and a cursor equals an `end` snapshot exactly when its
base offset has reached the end-of-file pointer value that snapshot
captured. -/
theorem C8_iterator_equality :
    (∀ it other : Blob.iterator,
      (it.equal other = true ↔ it.current_base_offset = other.current_base_offset)) ∧
    (∀ (b : Blob) (it : Blob.iterator),
      (it.equal b.end_ = true ↔ it.current_base_offset = b.m_end_of_file_ptr)) := by
  constructor
  · intro it other
    simp [Blob.iterator.equal, Blob.iterator.current_base_offset]
  · intro b it
    simp [Blob.iterator.equal, Blob.iterator.current_base_offset, Blob.end_]

/-- Claim C9: a cursor's `current_data_size` is exactly `data_size` at its
current base offset, and at every committed base offset the size reported
by `data_size` coincides with the payload size that `read_data` returns. -/
theorem C9_data_size_consistent :
    (∀ (b : Blob) (base : Nat),
      Blob.iterator.current_data_size ⟨b, base⟩ = b.data_size base) ∧
    (∀ (b : Blob) (log : List (List Nat × List Nat)) (rest : List Nat)
        (pre suf : List (List Nat × List Nat)) (M P : List Nat),
      b.WF log rest → log = pre ++ (M, P) :: suf →
        b.read_data (24 + (logBytes pre).length) = .ok (P, P.length) ∧
        b.data_size (24 + (logBytes pre).length) = .ok P.length) := by
  constructor
  · intro b base
    rfl
  · intro b log rest pre suf M P hWF hs
    exact ⟨read_data_committed hWF hs, data_size_committed hWF hs⟩

/-- Witness for C9 on the committed stanza of the one-stanza demo blob. -/
theorem C9_data_size_consistent_witness :
    demoBlob1.read_data 24 = .ok ([9], 1) ∧ demoBlob1.data_size 24 = .ok 1 := by
  have h := C9_data_size_consistent.2 demoBlob1 [([7], [9])] [] [] [] [7] [9]
    WF_demoBlob1 rfl
  simpa using h

/-- Claim C10: advancing from any committed stanza strictly increases the
base offset while staying bounded by the end-of-file pointer, so the scan
from `begin` visits a strictly increasing bounded sequence and reaches the
`end` cursor after finitely many steps (fuel one more than the number of
committed stanzas suffices). -/
theorem C10_scan_terminates :
    (∀ (b : Blob) (log : List (List Nat × List Nat)) (rest : List Nat)
        (pre suf : List (List Nat × List Nat)) (M P : List Nat),
      b.WF log rest → log = pre ++ (M, P) :: suf →
      ∃ nxt, b.next_base_offset (24 + (logBytes pre).length) = .ok nxt ∧
        24 + (logBytes pre).length < nxt ∧ nxt ≤ b.m_end_of_file_ptr) ∧
    (∀ (b : Blob) (log : List (List Nat × List Nat)) (rest : List Nat),
      b.WF log rest →
      b.scanFrom (log.length + 1) b.begin = .ok (offsetsFrom 24 log)) := by
  constructor
  · intro b log rest pre suf M P hWF hs
    obtain ⟨_, _, h3, _⟩ := WF_split hWF hs
    refine ⟨_, next_base_offset_committed hWF hs, ?_, ?_⟩
    · omega
    · omega
  · intro b log rest hWF
    have h := scanFrom_WF hWF log [] (by simp)
    exact h

/-- Witness for C10 on the one-stanza demo blob: advancing from offset 24
lands on 60, strictly above 24 and within the end-of-file pointer, and the
scan reaches the end in one step. -/
theorem C10_scan_terminates_witness :
    demoBlob1.next_base_offset 24 = .ok 60 ∧ 24 < 60 ∧
    60 ≤ demoBlob1.m_end_of_file_ptr ∧
    demoBlob1.scanFrom 2 demoBlob1.begin = .ok [24] := by
  obtain ⟨nxt, h1, h2, h3⟩ :=
    C10_scan_terminates.1 demoBlob1 [([7], [9])] [] [] [] [7] [9] WF_demoBlob1 rfl
  have h0 : demoBlob1.next_base_offset
      (24 + (logBytes ([] : List (List Nat × List Nat))).length) = .ok 60 := rfl
  rw [h1] at h0
  have hn : nxt = 60 := Except.ok.inj h0
  subst hn
  refine ⟨h1, by norm_num, h3, ?_⟩
  exact C10_scan_terminates.2 demoBlob1 [([7], [9])] [] WF_demoBlob1

/-- Claim C3: on a blob produced by N successful writes, the scan from
`begin` advanced until it equals `end` visits exactly the returned base
offsets, in write order; and `read_header` (the cursor's dereference) at
each returned offset is exactly the metadata supplied to the
corresponding write. -/
theorem C3_full_scan {b : Blob} {wlog : List (List Nat × List Nat × Nat)}
    (h : Built b wlog) :
    b.scanFrom (wlog.length + 1) b.begin = .ok (wlogOffsets wlog) ∧
    ∀ pre t suf, wlog = pre ++ t :: suf → b.read_header t.2.2 = .ok t.1 := by
  obtain ⟨hWF, hoff⟩ := Built_WF h
  constructor
  · have hscan := scanFrom_WF hWF (wlogEntries wlog) [] (by simp)
    have hlen : (wlogEntries wlog).length = wlog.length := by
      simp [wlogEntries]
    rw [hlen] at hscan
    rw [hoff]
    exact hscan
  · intro pre t suf hs
    have hofft := Built_offset_of_split h hs
    have hsE : wlogEntries wlog = wlogEntries pre ++ (t.1, t.2.1) :: wlogEntries suf := by
      rw [hs]
      simp [wlogEntries]
    have hr := read_header_committed hWF hsE
    rw [hofft]
    exact hr

/-- Witness for C3 on the two-stanza demo blob: the scan visits the two
returned offsets in order and dereferences to the written metadata. -/
theorem C3_full_scan_witness :
    demoBlob2.scanFrom 3 demoBlob2.begin = .ok [24, 60] ∧
    demoBlob2.read_header 24 = .ok [7] ∧ demoBlob2.read_header 60 = .ok [5, 6] := by
  obtain ⟨h1, h2⟩ := C3_full_scan Built_demoBlob2
  refine ⟨by simpa using h1, ?_, ?_⟩
  · have h := h2 [] ([7], [9], 24) [([5, 6], [1, 2, 3], 60)] rfl
    simpa using h
  · have h := h2 [([7], [9], 24)] ([5, 6], [1, 2, 3], 60) [] rfl
    simpa using h

/-- Claim C6: from a committed stanza, `advance` moves to the current base
offset plus the stanza's total length (length prefix, descriptor,
metadata, payload); when the stanza is the last one this lands exactly on
the end-of-file pointer and the incremented cursor equals the `end`
cursor; and whenever the descriptor-computed next offset strictly exceeds
the end-of-file pointer, the operation fails with `CorruptStanza`. -/
theorem C6_advance :
    (∀ (b : Blob) (log : List (List Nat × List Nat)) (rest : List Nat)
        (pre suf : List (List Nat × List Nat)) (M P : List Nat),
      b.WF log rest → log = pre ++ (M, P) :: suf →
        b.next_base_offset (24 + (logBytes pre).length) =
          .ok (24 + (logBytes pre).length + (34 + M.length + P.length)) ∧
        (suf = [] →
          24 + (logBytes pre).length + (34 + M.length + P.length) = b.m_end_of_file_ptr ∧
          Blob.iterator.increment ⟨b, 24 + (logBytes pre).length⟩ =
            .ok ⟨b, b.m_end_of_file_ptr⟩ ∧
          Blob.iterator.equal ⟨b, b.m_end_of_file_ptr⟩ b.end_ = true)) ∧
    (∀ (b : Blob) (base : Nat) (r : BlobRecord) (L : Nat),
      b.read_blob_record base = .ok (r, L) →
      b.m_end_of_file_ptr < base + r.data_offset + r.data_size →
      b.next_base_offset base = .error .CorruptStanza) := by
  constructor
  · intro b log rest pre suf M P hWF hs
    have hnext := next_base_offset_committed hWF hs
    refine ⟨hnext, ?_⟩
    intro hsuf
    obtain ⟨_, _, h3, _⟩ := WF_split hWF hs
    rw [hsuf] at h3
    simp only [logBytes, List.length_nil] at h3
    have heq : 24 + (logBytes pre).length + (34 + M.length + P.length) =
        b.m_end_of_file_ptr := by omega
    refine ⟨heq, ?_, ?_⟩
    · rw [Blob.iterator.increment]
      simp only [hnext, heq]
    · simp [Blob.iterator.equal, Blob.end_]
  · intro b base r L hrb hlt
    simp only [Blob.next_base_offset, hrb]
    rw [if_pos hlt]

/-- Witness for C6: advancing off the single committed stanza of the
one-stanza demo blob lands on the end-of-file pointer and equals the
`end` cursor; with the pointer artificially lowered to 30, the computed
next offset 60 exceeds it and advancing fails with `CorruptStanza`. -/
theorem C6_advance_witness :
    demoBlob1.next_base_offset 24 = .ok 60 ∧
    Blob.iterator.increment ⟨demoBlob1, 24⟩ = .ok ⟨demoBlob1, 60⟩ ∧
    Blob.iterator.equal ⟨demoBlob1, 60⟩ demoBlob1.end_ = true ∧
    Blob.next_base_offset { demoBlob1 with m_end_of_file_ptr := 30 } 24 =
      .error .CorruptStanza := by
  have h := C6_advance.1 demoBlob1 [([7], [9])] [] [] [] [7] [9] WF_demoBlob1 rfl
  have h2 := h.2 rfl
  refine ⟨by simpa using h.1, ?_, ?_, ?_⟩
  · have := h2.2.1
    simpa using this
  · have := h2.2.2
    simpa using this
  · exact C6_advance.2 { demoBlob1 with m_end_of_file_ptr := 30 } 24
      (mkBlobRecord [7] [9]) 32 rfl (by decide)

/-- Reading a header one byte past the marker region of a non-empty
well-formed blob fails with `CorruptStanza`: the two bytes read there as a
descriptor length are the second length-prefix byte 0 and the first
descriptor byte 34, giving the absurd declared length 8704. -/
theorem read_header_25 {b : Blob} {log : List (List Nat × List Nat)} {rest : List Nat}
    (hWF : b.WF log rest) (hne : log ≠ []) :
    b.read_header 25 = .error .CorruptStanza := by
  cases log with
  | nil => exact absurd rfl hne
  | cons e log' =>
    obtain ⟨M, P⟩ := e
    obtain ⟨h1, h2, h3, h4⟩ := WF_split hWF (show (M, P) :: log' = [] ++ (M, P) :: log' from rfl)
    have heof : 58 ≤ b.m_end_of_file_ptr := by
      simp only [logBytes, List.length_nil] at h3
      omega
    have hbr : blobRecordBytes (mkBlobRecord M P) =
        34 :: (natLE 7 0 ++ (natLE 8 M.length ++
          (natLE 8 (34 + M.length) ++ natLE 8 P.length))) := by
      simp only [blobRecordBytes, mkBlobRecord]
      rw [show natLE 8 34 = 34 :: natLE 7 0 from rfl]
      simp [List.append_assoc]
    have hshape : b.file = markerBytes b.m_end_of_file_ptr ++
        (32 :: 0 :: 34 :: (natLE 7 0 ++ (natLE 8 M.length ++ (natLE 8 (34 + M.length) ++
          (natLE 8 P.length ++ (M ++ (P ++ (logBytes log' ++ rest)))))))) := by
      rw [h1]
      simp only [logBytes, List.append_nil, stanzaBytes, hbr,
        show natLE 2 32 = [32, 0] from rfl]
      simp [List.append_assoc]
    have hL : readBytes b.file 25 2 = [0, 34] := by
      rw [hshape]
      unfold readBytes
      rw [show (25 : Nat) = 24 + 1 from rfl, ← List.drop_drop,
        List.drop_left' (markerBytes_length _)]
      rfl
    have hnotrange : ¬(25 < 24 ∨ b.m_end_of_file_ptr ≤ 25) := by omega
    simp only [Blob.read_header]
    rw [if_neg hnotrange]
    simp only [Blob.read_blob_record, hL, show leVal [0, 34] = 8704 from rfl]
    rw [if_neg (by norm_num : ¬(8704 = 0))]
    by_cases hflen : b.file.length < 25 + 2 + 8704
    · rw [if_pos hflen]
    · rw [if_neg hflen]
      have hdlen : (readBytes b.file (25 + 2) 8704).length = 8704 := by
        unfold readBytes
        rw [List.length_take, List.length_drop]
        omega
      simp only [decodeBlobRecord, hdlen]
      rw [if_neg (by norm_num : ¬(8704 = 32))]

/-- Claim C7: `read_header` at an offset equal to `size()` (the end
position) fails with `OutOfRange`; at offset 25 — one byte past the marker
region and not aligned to any stanza start — it fails with
`CorruptStanza` on every well-formed blob holding at least one stanza. -/
theorem C7_out_of_range :
    (∀ b : Blob, b.read_header b.size = .error .OutOfRange) ∧
    (∀ (b : Blob) (log : List (List Nat × List Nat)) (rest : List Nat),
      b.WF log rest → log ≠ [] → b.read_header 25 = .error .CorruptStanza) := by
  constructor
  · intro b
    simp [Blob.read_header, Blob.size]
  · intro b log rest hWF hne
    exact read_header_25 hWF hne

/-- Witness for C7 on the one-stanza demo blob. -/
theorem C7_out_of_range_witness :
    demoBlob1.read_header demoBlob1.size = .error .OutOfRange ∧
    demoBlob1.read_header 25 = .error .CorruptStanza :=
  ⟨C7_out_of_range.1 demoBlob1,
   C7_out_of_range.2 demoBlob1 [([7], [9])] [] WF_demoBlob1 (by simp)⟩

/-- Claim C2: if stanza bytes are appended past the committed marker value
but the marker is never updated, reopening the blob yields the pre-crash
`size()`, the scan from `begin` to `end` visits only the committed
offsets (never the dangling stanza's offset, which equals the pre-crash
size), and any subsequent write succeeds and returns that same
uncommitted base offset. -/
theorem C2_crash_safety {b : Blob} {log : List (List Nat × List Nat)}
    (hWF : b.WF log []) (hfit : b.m_end_of_file_ptr < 2 ^ 64) (junk : List Nat) :
    ∃ b2, Blob.openFile (b.file ++ junk) false = .ok b2 ∧
      b2.size = b.size ∧
      b2.scanFrom (log.length + 1) b2.begin = .ok (offsetsFrom 24 log) ∧
      b.size ∉ offsetsFrom 24 log ∧
      (∀ M P : List Nat, ∃ b3, b2.write M P = .ok (b3, b.size)) := by
  obtain ⟨hfile, heof, hro, hg⟩ := hWF
  have hfj : b.file ++ junk = markerBytes b.m_end_of_file_ptr ++ (logBytes log ++ junk) := by
    rw [hfile]
    simp [List.append_assoc]
  have hWF2 : Blob.WF ⟨markerBytes b.m_end_of_file_ptr ++ (logBytes log ++ junk),
      b.m_end_of_file_ptr, 0, false⟩ log junk := by
    refine ⟨?_, heof, rfl, hg⟩
    simp [List.append_assoc]
  refine ⟨⟨markerBytes b.m_end_of_file_ptr ++ (logBytes log ++ junk),
      b.m_end_of_file_ptr, 0, false⟩, ?_, rfl, ?_, ?_, ?_⟩
  · rw [hfj]
    exact openFile_marker _ hfit false
  · exact scanFrom_WF hWF2 log [] (by simp)
  · intro hmem
    have hlt := offsetsFrom_mem_lt hmem
    simp only [Blob.size] at hlt
    omega
  · intro M P
    exact write_succeeds M P rfl

/-- Witness for C2: the one-stanza demo blob with three dangling bytes
appended reopens at the committed size 60, scans only offset 24, and the
next write reuses base offset 60 — the dangling stanza's uncommitted
offset. -/
theorem C2_crash_safety_witness :
    Blob.openFile (demoBlob1.file ++ [1, 2, 3]) false = .ok demoReopened ∧
    demoReopened.size = demoBlob1.size ∧
    demoReopened.scanFrom 2 demoReopened.begin = .ok [24] ∧
    demoBlob1.size ∉ ([24] : List Nat) ∧
    demoReopened.write [4] [8] = .ok (demoRewrite, demoBlob1.size) := by
  obtain ⟨b2, hopen, hsize, hscan, hnot, hwrite⟩ :=
    C2_crash_safety WF_demoBlob1 (by decide) [1, 2, 3]
  have hb2 : b2 = demoReopened := by
    have h0 : Blob.openFile (demoBlob1.file ++ [1, 2, 3]) false = .ok demoReopened := rfl
    rw [hopen] at h0
    exact Except.ok.inj h0
  subst hb2
  exact ⟨hopen, hsize, hscan, hnot, rfl⟩
